import Mathlib

/-!
Verification of the single-spa-sample repository.

This file shallowly embeds the parts of the repository that the verified
properties are about:

* `src/pure-js/app.js` — the vanilla-JS child application (its module-level
  `appState`, `createApp`, `destroyApp`, `mount`, `unmount`);
* the main application component (`handleSubmit`, `handleDelete`, the
  localStorage persistence effects, and the `ChildAppRenderer` loader with
  its `loadChildApp` routine and its cleanup closure);
* `src/root-config.ts` — the top-level orchestration sequence.

DOM elements are identified by numeric ids; the DOM itself is modelled as an
association list from element id to its `innerHTML` string, plus a flag for
the injected style tag.  Promises are modelled by sequencing: a trace records
the lifecycle calls in the order the code awaits them.  Browser built-ins
used by the code (`JSON.stringify` / `JSON.parse`, `localStorage`) are
modelled concretely below, restricted to the shapes this program stores.
-/

namespace SingleSpaSample

/-! ### Generic association-list store

Used both for the DOM (`element id ↦ innerHTML`) and for `localStorage`
(`key ↦ value`).  `assocSet` models `localStorage.setItem` / assignment to
`innerHTML`: it overwrites the entry for the key, keeping other keys. -/

def assocSet {α β : Type} [DecidableEq α] : List (α × β) → α → β → List (α × β)
  | [], k, v => [(k, v)]
  | (k2, v2) :: rest, k, v =>
    if k2 = k then (k, v) :: rest else (k2, v2) :: assocSet rest k v

def assocGet {α β : Type} [DecidableEq α] : List (α × β) → α → Option β
  | [], _ => none
  | (k2, v2) :: rest, k => if k2 = k then some v2 else assocGet rest k

theorem assocGet_assocSet {α β : Type} [DecidableEq α]
    (l : List (α × β)) (k : α) (v : β) : assocGet (assocSet l k v) k = some v := by
  induction l with
  | nil => simp [assocSet, assocGet]
  | cons p rest ih =>
    obtain ⟨k2, v2⟩ := p
    by_cases h : k2 = k
    · simp [assocSet, assocGet, h]
    · simp [assocSet, assocGet, h, ih]

/-! ### The pure-js child application (`src/pure-js/app.js`)

`appState` is the module-level mutable record `{ mounted, container,
eventListeners }`.  The DOM is the association list `inner` (element id ↦
innerHTML) together with `styleInjected`, which records whether the
`pure-js-app-styles` style tag is in `document.head` (`injectStyles` is
guarded by a lookup, hence idempotent).  The markup `createApp` builds from
`window.location` is irrelevant to the properties proved here and is
abstracted as the non-empty string `renderedAppHtml`. -/

namespace PureJs

structure Listener where
  elem : Nat
  event : String
deriving DecidableEq

structure AppState where
  mounted : Bool
  container : Option Nat
  eventListeners : List Listener
deriving DecidableEq

/-- The initialiser of the module-level `appState` record. -/
def initialAppState : AppState :=
  { mounted := false, container := none, eventListeners := [] }

structure Dom where
  inner : List (Nat × String)
  styleInjected : Bool
deriving DecidableEq

/-- Assignment `element.innerHTML = html` for the element with id `el`. -/
def setInner (dom : Dom) (el : Nat) (html : String) : Dom :=
  { dom with inner := assocSet dom.inner el html }

/-- `injectStyles`: adds the style tag unless it is already present. -/
def injectStyles (dom : Dom) : Dom :=
  if dom.styleInjected then dom else { dom with styleInjected := true }

/-- Stands in for the host-information markup `createApp` builds; its exact
contents do not matter, only that the container is no longer empty. -/
def renderedAppHtml : String := "pure-js-app"

/-- `createApp(container, props)`: early-returns when already mounted;
otherwise records the container, sets `mounted`, injects the styles, and
replaces the container's contents with the app markup (`innerHTML = ''`
followed by `appendChild(appRoot)`). -/
def createApp (container : Nat) (st : AppState) (dom : Dom) : AppState × Dom :=
  if st.mounted then (st, dom)
  else
    ({ st with container := some container, mounted := true },
      setInner (injectStyles dom) container renderedAppHtml)

/-- `destroyApp(container)`: early-returns when not mounted; otherwise
detaches the recorded event listeners, empties the listener list, clears the
container (`innerHTML = ''`), and resets `mounted` and `container`. -/
def destroyApp (container : Nat) (st : AppState) (dom : Dom) : AppState × Dom :=
  if !st.mounted then (st, dom)
  else
    ({ st with eventListeners := [], mounted := false, container := none },
      setInner dom container "")

/-- The lifecycle props object; the code only reads `domElement` (the `name`
and `singleSpa` fields it also receives are never used by this child). -/
structure LifecycleProps where
  domElement : Option Nat
deriving DecidableEq

/-- The exported `mount(props)`: throws `'No DOM element provided'` when
`props` is absent or has no `domElement`, otherwise calls `createApp`.  The
returned `Except` is the promise outcome; the state and DOM after the call
are returned alongside it. -/
def mount (props : Option LifecycleProps) (st : AppState) (dom : Dom) :
    Except String Unit × AppState × Dom :=
  match props with
  | none => (.error "No DOM element provided", st, dom)
  | some p =>
    match p.domElement with
    | none => (.error "No DOM element provided", st, dom)
    | some el =>
      let r := createApp el st dom
      (.ok (), r.1, r.2)

/-- The exported `unmount(props)`: calls `destroyApp(props.domElement)` when
a DOM element is supplied, and resolves without doing anything otherwise. -/
def unmount (props : Option LifecycleProps) (st : AppState) (dom : Dom) :
    AppState × Dom :=
  match props with
  | none => (st, dom)
  | some p =>
    match p.domElement with
    | none => (st, dom)
    | some el => destroyApp el st dom

end PureJs

/-! ### JavaScript string trimming

`String.prototype.trim` removes the ECMAScript WhiteSpace and LineTerminator
characters from both ends.  The submit handler only uses it through the check
`!formData.name.trim()`, i.e. "is the trimmed string empty". -/

def isJsWhitespace (c : Char) : Bool :=
  c = ' ' || c = '\t' || c = '\n' || c = '\r' || c = '\x0b' || c = '\x0c' ||
  c = '\u00A0' || c = '\u1680' ||
  (0x2000 ≤ c.toNat && c.toNat ≤ 0x200a) ||
  c = '\u2028' || c = '\u2029' || c = '\u202F' || c = '\u205F' ||
  c = '\u3000' || c = '\uFEFF'

/-- `s.trim()` of JavaScript. -/
def jsTrim (s : String) : String :=
  String.mk (((s.toList.dropWhile isJsWhitespace).reverse.dropWhile
    isJsWhitespace).reverse)

theorem jsTrim_of_all_whitespace (s : String)
    (h : s.toList.all isJsWhitespace = true) : jsTrim s = "" := by
  have h1 : s.toList.dropWhile isJsWhitespace = [] :=
    List.dropWhile_eq_nil_iff.mpr (by simpa [List.all_eq_true] using h)
  unfold jsTrim
  rw [h1]
  rfl

/-! ### The registry (main application component)

The component state of `App`: the `applications` array of `{name, url}`
records, the controlled `formData`, and `editingIndex` (`null` when adding).
`localStorage` is the string-keyed store; the `useEffect` hooked on
`[applications]` serialises the array under the key `childApplications`
whenever `setApplications` installs a new array. -/

structure AppEntry where
  name : String
  url : String
deriving DecidableEq

structure MainAppState where
  applications : List AppEntry
  formData : AppEntry
  editingIndex : Option Nat
deriving DecidableEq

def Store : Type := List (String × String)

instance : DecidableEq Store := by unfold Store; infer_instance

/-! The JSON serialisation used by `saveApps` is defined in the next section;
`stringifyApps` is declared there.  The submit/delete handlers themselves do
not depend on it. -/

/-- `handleSubmit`: alerts and returns early when either trimmed field is
empty; otherwise replaces the entry at `editingIndex` (edit mode) or appends
a copy of the form data (add mode), then resets the form. -/
def handleSubmit (st : MainAppState) : MainAppState :=
  if jsTrim st.formData.name = "" || jsTrim st.formData.url = "" then st
  else
    match st.editingIndex with
    | some i =>
      { applications := st.applications.set i st.formData,
        formData := ⟨"", ""⟩, editingIndex := none }
    | none =>
      { applications := st.applications ++ [st.formData],
        formData := ⟨"", ""⟩, editingIndex := none }

/-- `handleDelete(index)`: filters the entry whose position equals `index`
out of the array, and clears the edit state when the deleted entry was the
one being edited. -/
def handleDelete (i : Nat) (st : MainAppState) : MainAppState :=
  { applications :=
      ((st.applications.enum.filter (fun p => p.1 != i)).map Prod.snd),
    formData := if st.editingIndex = some i then ⟨"", ""⟩ else st.formData,
    editingIndex := if st.editingIndex = some i then none else st.editingIndex }

/-- The filter-by-index deletion of `handleDelete` removes exactly the entry
at the index and keeps the rest in order. -/
theorem filter_enum_ne_eq_eraseIdx {α : Type} (l : List α) :
    ∀ i : Nat, ((l.enum.filter (fun p => p.1 != i)).map Prod.snd)
      = l.eraseIdx i := by
  suffices h : ∀ (l : List α) (n i : Nat),
      (((List.enumFrom n l).filter (fun p => p.1 != (n + i))).map Prod.snd)
        = l.eraseIdx i by
    intro i
    simpa [List.enum] using h l 0 i
  intro l
  induction l with
  | nil => intro n i; simp [List.eraseIdx]
  | cons a l ih =>
    intro n i
    have keep : ∀ (l2 : List α) (m k : Nat), k < m →
        (((List.enumFrom m l2).filter (fun p => p.1 != k)).map Prod.snd) = l2 := by
      intro l2
      induction l2 with
      | nil => intro m k _; simp
      | cons b l2 ih2 =>
        intro m k hk
        have hne : (m != k) = true := by simp [Nat.ne_of_gt hk]
        simp only [List.enumFrom, List.filter, hne, List.map]
        exact congrArg _ (ih2 (m + 1) k (Nat.lt_succ_of_lt hk))
    match i with
    | 0 =>
      have hne : (n != n + 0) = false := by simp
      simp only [List.enumFrom, List.filter, hne, List.eraseIdx]
      exact keep l (n + 1) n (Nat.lt_succ_self n)
    | j + 1 =>
      have hne : (n != n + (j + 1)) = true := by simp
      simp only [List.enumFrom, List.filter, hne, List.map, List.eraseIdx]
      have := ih (n + 1) j
      rw [show n + (j + 1) = (n + 1) + j by omega]
      exact congrArg _ this

/-! ### JSON serialisation of the applications array

The persistence effect stores `JSON.stringify(applications)` under the
localStorage key `childApplications`, and the startup effect reads it back
through `JSON.parse`.  `JSON.stringify` / `JSON.parse` are browser built-ins;
they are modelled here concretely for the values this program stores: arrays
of two-field objects written in insertion order (`name` first, `url` second,
matching the `{ name, url }` form state the entries are copied from).
Strings are escaped exactly as `JSON.stringify` escapes them: `"` and `\`
get a backslash, the named control escapes `\b \t \n \f \r` are used, the
remaining control characters become `\u00xx`, and everything else is copied
verbatim.  The parser below is `JSON.parse` restricted to this grammar. -/

def hexDigitChar (n : Nat) : Char :=
  if n < 10 then Char.ofNat (48 + n) else Char.ofNat (87 + n)

def hexDigitVal (c : Char) : Option Nat :=
  if '0' ≤ c && c ≤ '9' then some (c.toNat - 48)
  else if 'a' ≤ c && c ≤ 'f' then some (c.toNat - 87)
  else if 'A' ≤ c && c ≤ 'F' then some (c.toNat - 55)
  else none

theorem hexDigitVal_hexDigitChar : ∀ n : Nat, n < 16 →
    hexDigitVal (hexDigitChar n) = some n := by decide

/-- How `JSON.stringify` writes one character inside a string literal. -/
def escapeChar (c : Char) : List Char :=
  if c = '"' then ['\\', '"']
  else if c = '\\' then ['\\', '\\']
  else if c = '\n' then ['\\', 'n']
  else if c = '\r' then ['\\', 'r']
  else if c = '\t' then ['\\', 't']
  else if c = '\x08' then ['\\', 'b']
  else if c = '\x0c' then ['\\', 'f']
  else if c.toNat < 32 then
    ['\\', 'u', '0', '0', hexDigitChar (c.toNat / 16), hexDigitChar (c.toNat % 16)]
  else [c]

def escList : List Char → List Char
  | [] => []
  | c :: cs => escapeChar c ++ escList cs

/-- The characters of a serialised `{"name":…,"url":…}` object, split at the
string quotes the way the parser consumes them. -/
def entryOpen : List Char := "\x7b\"name\":\"".toList

def entryMidTail : List Char := ",\"url\":\"".toList

def entryChars (e : AppEntry) : List Char :=
  entryOpen ++ escList e.name.toList ++ '"' :: entryMidTail ++
    escList e.url.toList ++ '"' :: '\x7d' :: []

/-- The serialised array body: entries joined by commas. -/
def entriesChars : List AppEntry → List Char
  | [] => []
  | [e] => entryChars e
  | e :: es => entryChars e ++ ',' :: entriesChars es

def appsChars (l : List AppEntry) : List Char :=
  '[' :: entriesChars l ++ [']']

/-- `JSON.stringify(applications)`. -/
def stringifyApps (l : List AppEntry) : String :=
  String.mk (appsChars l)

/-- What `JSON.parse` does with the inside of a string literal: consume up to
and including the closing quote, undoing the escapes; returns the decoded
characters and the unconsumed input. -/
def parseJString : List Char → Option (List Char × List Char)
  | [] => none
  | c :: rest =>
    if c = '"' then some ([], rest)
    else if c = '\\' then
      match rest with
      | [] => none
      | e :: rest2 =>
        if e = 'u' then
          match rest2 with
          | h1 :: h2 :: h3 :: h4 :: rest3 =>
            match hexDigitVal h1, hexDigitVal h2, hexDigitVal h3, hexDigitVal h4 with
            | some v1, some v2, some v3, some v4 =>
              match parseJString rest3 with
              | some (cs, r) =>
                some (Char.ofNat (((v1 * 16 + v2) * 16 + v3) * 16 + v4) :: cs, r)
              | none => none
            | _, _, _, _ => none
          | _ => none
        else
          match unescapeChar e with
          | some uc =>
            match parseJString rest2 with
            | some (cs, r) => some (uc :: cs, r)
            | none => none
          | none => none
    else
      match parseJString rest with
      | some (cs, r) => some (c :: cs, r)
      | none => none
where
  unescapeChar : Char → Option Char := fun e =>
    if e = '"' then some '"'
    else if e = '\\' then some '\\'
    else if e = '/' then some '/'
    else if e = 'n' then some '\n'
    else if e = 'r' then some '\r'
    else if e = 't' then some '\t'
    else if e = 'b' then some '\x08'
    else if e = 'f' then some '\x0c'
    else none

def stripPrefixChars : List Char → List Char → Option (List Char)
  | [], l => some l
  | _ :: _, [] => none
  | p :: ps, c :: cs => if c = p then stripPrefixChars ps cs else none

def parseEntry (l : List Char) : Option (AppEntry × List Char) :=
  match stripPrefixChars entryOpen l with
  | none => none
  | some l1 =>
    match parseJString l1 with
    | none => none
    | some (n, l2) =>
      match stripPrefixChars entryMidTail l2 with
      | none => none
      | some l3 =>
        match parseJString l3 with
        | none => none
        | some (u, l4) =>
          match l4 with
          | '\x7d' :: l5 => some (⟨String.mk n, String.mk u⟩, l5)
          | _ => none

/-- The comma-separated entry sequence, with fuel for totality. -/
def parseEntriesAux : Nat → List Char → Option (List AppEntry × List Char)
  | 0, _ => none
  | fuel + 1, l =>
    match parseEntry l with
    | none => none
    | some (e, r) =>
      match r with
      | ',' :: r2 =>
        match parseEntriesAux fuel r2 with
        | some (es, r3) => some (e :: es, r3)
        | none => none
      | _ => some ([e], r)

/-- `JSON.parse` restricted to the arrays this program stores. -/
def parseApps (s : String) : Option (List AppEntry) :=
  match s.toList with
  | '[' :: l =>
    if l = [']'] then some []
    else
      match parseEntriesAux l.length l with
      | some (es, [']']) => some es
      | _ => none
  | _ => none

/-! ### Persistence effects

`saveApps` is the `useEffect` on `[applications]` (it runs
`localStorage.setItem('childApplications', JSON.stringify(applications))`);
`loadApps` is the startup effect (it runs
`localStorage.getItem('childApplications')` and parses a present value). -/

def saveApps (apps : List AppEntry) (store : Store) : Store :=
  assocSet store "childApplications" (stringifyApps apps)

def loadApps (store : Store) : Option (List AppEntry) :=
  match assocGet store "childApplications" with
  | none => none
  | some s => parseApps s

/-- The submit handler together with the persistence effect it triggers: on
the early-return path `setApplications` is not called, so the effect hooked
on `[applications]` does not run and the store is untouched; on the update
paths the new array is installed and then serialised to the store. -/
def handleSubmitStore (st : MainAppState) (store : Store) :
    MainAppState × Store :=
  if jsTrim st.formData.name = "" || jsTrim st.formData.url = "" then (st, store)
  else
    let st2 := handleSubmit st
    (st2, saveApps st2.applications store)

/-! ### Round-trip of the JSON codec on the stored values -/

theorem mk_toList (s : String) : String.mk s.toList = s := rfl

theorem parseJString_escapeChar (c : Char) (tail cs r : List Char)
    (h : parseJString tail = some (cs, r)) :
    parseJString (escapeChar c ++ tail) = some (c :: cs, r) := by
  by_cases hq : c = '"'
  · subst hq
    have he : escapeChar '"' = ['\\', '"'] := by decide
    rw [he, List.cons_append, List.cons_append, List.nil_append,
      parseJString.eq_def]
    simp [parseJString.unescapeChar, h]
  · by_cases hbs : c = '\\'
    · subst hbs
      have he : escapeChar '\\' = ['\\', '\\'] := by decide
      rw [he, List.cons_append, List.cons_append, List.nil_append,
        parseJString.eq_def]
      simp [parseJString.unescapeChar, h]
    · by_cases hn : c = '\n'
      · subst hn
        have he : escapeChar '\n' = ['\\', 'n'] := by decide
        rw [he, List.cons_append, List.cons_append, List.nil_append,
          parseJString.eq_def]
        simp [parseJString.unescapeChar, h]
      · by_cases hr : c = '\r'
        · subst hr
          have he : escapeChar '\r' = ['\\', 'r'] := by decide
          rw [he, List.cons_append, List.cons_append, List.nil_append,
            parseJString.eq_def]
          simp [parseJString.unescapeChar, h]
        · by_cases ht : c = '\t'
          · subst ht
            have he : escapeChar '\t' = ['\\', 't'] := by decide
            rw [he, List.cons_append, List.cons_append, List.nil_append,
              parseJString.eq_def]
            simp [parseJString.unescapeChar, h]
          · by_cases hb : c = '\x08'
            · subst hb
              have he : escapeChar '\x08' = ['\\', 'b'] := by decide
              rw [he, List.cons_append, List.cons_append, List.nil_append,
                parseJString.eq_def]
              simp [parseJString.unescapeChar, h]
            · by_cases hf : c = '\x0c'
              · subst hf
                have he : escapeChar '\x0c' = ['\\', 'f'] := by decide
                rw [he, List.cons_append, List.cons_append, List.nil_append,
                  parseJString.eq_def]
                simp [parseJString.unescapeChar, h]
              · by_cases hc : c.toNat < 32
                · have he : escapeChar c
                      = ['\\', 'u', '0', '0', hexDigitChar (c.toNat / 16),
                         hexDigitChar (c.toNat % 16)] := by
                    rw [escapeChar]
                    simp [hq, hbs, hn, hr, ht, hb, hf, hc]
                  have h0 : hexDigitVal '0' = some 0 := by decide
                  have h1 := hexDigitVal_hexDigitChar (c.toNat / 16) (by omega)
                  have h2 := hexDigitVal_hexDigitChar (c.toNat % 16)
                    (Nat.mod_lt _ (by omega))
                  have harith : c.toNat / 16 * 16 + c.toNat % 16 = c.toNat := by
                    omega
                  rw [he]
                  rw [List.cons_append, List.cons_append, List.cons_append,
                    List.cons_append, List.cons_append, List.cons_append,
                    List.nil_append, parseJString.eq_def]
                  simp [h0, h1, h2, h, harith, Char.ofNat_toNat]
                · have he : escapeChar c = [c] := by
                    rw [escapeChar]
                    simp [hq, hbs, hn, hr, ht, hb, hf, hc]
                  rw [he, List.cons_append, List.nil_append, parseJString.eq_def]
                  simp [hq, hbs, h]

theorem parseJString_escList (s : List Char) : ∀ rest : List Char,
    parseJString (escList s ++ '"' :: rest) = some (s, rest) := by
  induction s with
  | nil =>
    intro rest
    rw [escList, List.nil_append, parseJString.eq_def]
    simp
  | cons c cs ih =>
    intro rest
    rw [escList, List.append_assoc]
    exact parseJString_escapeChar c _ _ _ (ih rest)

theorem stripPrefixChars_append (p : List Char) : ∀ rest : List Char,
    stripPrefixChars p (p ++ rest) = some rest := by
  induction p with
  | nil => intro rest; rfl
  | cons c p ih => intro rest; simp [stripPrefixChars, ih]

theorem parseEntry_entryChars (e : AppEntry) (rest : List Char) :
    parseEntry (entryChars e ++ rest) = some (e, rest) := by
  have h : entryChars e ++ rest
      = entryOpen ++ (escList e.name.toList ++ '"' ::
        (entryMidTail ++ (escList e.url.toList ++ '"' :: '\x7d' :: rest))) := by
    simp [entryChars]
  rw [h]
  simp [parseEntry, stripPrefixChars_append, parseJString_escList, mk_toList]

theorem parseEntriesAux_entriesChars (es : List AppEntry) :
    ∀ (e : AppEntry) (fuel : Nat), es.length < fuel →
    parseEntriesAux fuel (entriesChars (e :: es) ++ [']'])
      = some (e :: es, [']']) := by
  induction es with
  | nil =>
    intro e fuel hf
    cases fuel with
    | zero => omega
    | succ f =>
      simp [entriesChars, parseEntriesAux, parseEntry_entryChars]
  | cons e2 es2 ih =>
    intro e fuel hf
    cases fuel with
    | zero => omega
    | succ f =>
      have h : entriesChars (e :: e2 :: es2) ++ [']']
          = entryChars e ++ ',' :: (entriesChars (e2 :: es2) ++ [']']) := by
        simp [entriesChars]
      rw [h]
      simp [parseEntriesAux, parseEntry_entryChars,
        ih e2 f (by simpa using Nat.lt_of_succ_lt_succ hf)]

theorem entryChars_length_pos (e : AppEntry) : 0 < (entryChars e).length := by
  have h9 : entryOpen.length = 9 := by decide
  simp [entryChars, List.length_append, h9]

theorem length_lt_entriesChars (es : List AppEntry) :
    ∀ e : AppEntry, es.length + 1 < (entriesChars (e :: es) ++ [']']).length := by
  induction es with
  | nil =>
    intro e
    have h1 := entryChars_length_pos e
    simp only [entriesChars, List.length_append, List.length_cons,
      List.length_nil]
    omega
  | cons e2 es2 ih =>
    intro e
    have h1 := entryChars_length_pos e
    have h2 := ih e2
    have h : entriesChars (e :: e2 :: es2) ++ [']']
        = entryChars e ++ ',' :: (entriesChars (e2 :: es2) ++ [']']) := by
      simp [entriesChars]
    rw [h]
    simp only [List.length_append, List.length_cons, List.length_nil] at h2 ⊢
    omega

theorem parseApps_stringifyApps (apps : List AppEntry) :
    parseApps (stringifyApps apps) = some apps := by
  match apps with
  | [] => decide
  | e :: es =>
    have hlen := length_lt_entriesChars es e
    have hne : ¬(entriesChars (e :: es) ++ [']'] = [']']) := by
      intro hcon
      have hlen2 := hlen
      rw [hcon] at hlen2
      simp only [List.length_cons, List.length_nil] at hlen2
      omega
    have hfuel : es.length < (entriesChars (e :: es) ++ [']']).length :=
      Nat.lt_of_succ_lt hlen
    have hparse := parseEntriesAux_entriesChars es e
      ((entriesChars (e :: es) ++ [']']).length) hfuel
    simp only [List.length_append, List.length_cons, List.length_nil,
      Nat.zero_add] at hparse
    simp [parseApps, stringifyApps, appsChars, hne, hparse]

/-! ### The Loader/Mounter (`ChildAppRenderer` and `loadChildApp`)

A dynamically imported module is a record of which lifecycle functions it
exports (the truthiness checks `appModule.bootstrap && appModule.mount &&
appModule.unmount`), how each behaves when awaited (`none` = the promise
resolves, `some msg` = it rejects with that message), and its
`Object.keys`.  `loadChildApp` is modelled from the point where
`System.import(appUrl)` has resolved to the module: the earlier fetch and
dependency pre-loading steps touch no lifecycle function and set the same
error state, so they are orthogonal to the verified properties.

The trace records the lifecycle invocations in the order the `await`s
sequence them; an event enters the trace when the call is made, whether or
not the awaited promise later rejects. -/

namespace Loader

structure ChildModule where
  hasBootstrap : Bool
  hasMount : Bool
  hasUnmount : Bool
  bootstrapErr : Option String
  mountErr : Option String
  unmountErr : Option String
  exportKeys : List String
deriving DecidableEq

inductive Ev where
  | bootstrapCall
  | mountCall (name : String) (domElement : Nat)
  | unmountCall (name : String) (domElement : Nat)
  | removeContainer (domElement : Nat)
deriving DecidableEq

def isMountCall : Ev → Bool
  | .mountCall _ _ => true
  | _ => false

def isUnmountCall : Ev → Bool
  | .unmountCall _ _ => true
  | _ => false

/-- What `appInstanceRef.current` holds after a successful export check: the
module and the inner container (identified here by its element id). -/
structure AppInstance where
  module : ChildModule
  containerElement : Nat
deriving DecidableEq

structure LoadResult where
  trace : List Ev
  error : Option String
  loading : Bool
  appInstance : Option AppInstance
deriving DecidableEq

/-- The `name` of the props object built for `mount` (and again for
`unmount` in the cleanup closure): `child-${appName}-${index}`. -/
def mountName (appName : String) (index : Nat) : String :=
  s!"child-{appName}-{index}"

/-- The list built by the three `missingExports.push` statements. -/
def missingExports (m : ChildModule) : List String :=
  (if !m.hasBootstrap then ["bootstrap"] else []) ++
  (if !m.hasMount then ["mount"] else []) ++
  (if !m.hasUnmount then ["unmount"] else [])

/-- The message `setError` receives when the export check fails: the thrown
`Application does not export required functions: …` wrapped by the
`importError` handler's `Failed to load application: ` prefix. -/
def missingExportsMsg (m : ChildModule) : String :=
  "Failed to load application: Application does not export required functions: "
    ++ String.intercalate ", " (missingExports m)
    ++ ". Available exports: " ++ String.intercalate ", " m.exportKeys

/-- `loadChildApp` from the resolved `System.import(appUrl)` module on: the
export check, then `await bootstrap()`, then `await mount(mountProps)`, with
each rejection rethrown into the `importError` handler that sets the error
state.  `elId` is the id of the inner container div the renderer created. -/
def loadChildApp (m : ChildModule) (appName : String) (index elId : Nat) :
    LoadResult :=
  if m.hasBootstrap && m.hasMount && m.hasUnmount then
    let inst : AppInstance := ⟨m, elId⟩
    match m.bootstrapErr with
    | some msg =>
      { trace := [.bootstrapCall],
        error := some ("Failed to load application: Bootstrap failed: " ++ msg),
        loading := false, appInstance := some inst }
    | none =>
      match m.mountErr with
      | some msg =>
        { trace := [.bootstrapCall, .mountCall (mountName appName index) elId],
          error := some ("Failed to load application: Mount failed: " ++ msg),
          loading := false, appInstance := some inst }
      | none =>
        { trace := [.bootstrapCall, .mountCall (mountName appName index) elId],
          error := none, loading := false, appInstance := some inst }
  else
    { trace := [], error := some (missingExportsMsg m),
      loading := false, appInstance := none }

/-- The cleanup closure returned by the effect: when an instance was stored,
call its `unmount` with the same `name`/`domElement` props as `mount`, and in
the promise's `finally` remove the inner container from its parent (whether
the unmount resolved or rejected).  `hasParent` is the guard
`containerElement.parentElement` (the wrapper div, unless the container was
already detached). -/
def cleanup (inst : Option AppInstance) (appName : String) (index : Nat)
    (hasParent : Bool) : List Ev :=
  match inst with
  | none => []
  | some i =>
    if i.module.hasUnmount then
      .unmountCall (mountName appName index) i.containerElement ::
        (if hasParent then [.removeContainer i.containerElement] else [])
    else []

end Loader

/-! ### The root orchestrator (`src/root-config.ts`)

The module's top-level statements, in source order: install the diagnostic
single-spa event listeners, register the one application, start the
runtime. -/

namespace RootConfig

inductive RootAction where
  | setupEventHandlers
  | register (name : String) (activeWhen : List String)
  | startRuntime (urlRerouteOnly : Bool)
deriving DecidableEq

def isRegisterAction : RootAction → Bool
  | .register _ _ => true
  | _ => false

def isStartAction : RootAction → Bool
  | .startRuntime _ => true
  | _ => false

def isSetupAction : RootAction → Bool
  | .setupEventHandlers => true
  | _ => false

/-- The top-level execution sequence of `root-config.ts`:
`setupSingleSpaEventHandlers(); registerApplication({name: 'main', app: …,
activeWhen: ['/']}); start({urlRerouteOnly: true});`. -/
def rootConfigActions : List RootAction :=
  [.setupEventHandlers, .register "main" ["/"], .startRuntime true]

end RootConfig

/-! ## The verified claims -/

theorem missingExports_spec (m : Loader.ChildModule) (s : String) :
    s ∈ Loader.missingExports m ↔
      ((s = "bootstrap" ∧ m.hasBootstrap = false) ∨
       (s = "mount" ∧ m.hasMount = false) ∨
       (s = "unmount" ∧ m.hasUnmount = false)) := by
  cases hb : m.hasBootstrap <;> cases hm : m.hasMount <;>
    cases hu : m.hasUnmount <;>
    simp [Loader.missingExports, hb, hm, hu]

/-- C1: when the dynamically imported module lacks any of the exports
`bootstrap`, `mount`, `unmount`, `loadChildApp` invokes no lifecycle
function, sets the error state to the message listing exactly the missing
export names, and stores no app instance; only when all three exports are
present does it proceed to bootstrap (and, once bootstrap resolves, to
mount). -/
theorem c1_export_verification (m : Loader.ChildModule) (appName : String)
    (index elId : Nat) :
    (¬(m.hasBootstrap && m.hasMount && m.hasUnmount) = true →
      (Loader.loadChildApp m appName index elId).trace = [] ∧
      (Loader.loadChildApp m appName index elId).error
        = some (Loader.missingExportsMsg m) ∧
      (Loader.loadChildApp m appName index elId).appInstance = none ∧
      (∀ s : String, s ∈ Loader.missingExports m ↔
        ((s = "bootstrap" ∧ m.hasBootstrap = false) ∨
         (s = "mount" ∧ m.hasMount = false) ∨
         (s = "unmount" ∧ m.hasUnmount = false)))) ∧
    ((m.hasBootstrap && m.hasMount && m.hasUnmount) = true →
      (Loader.loadChildApp m appName index elId).trace.head?
        = some Loader.Ev.bootstrapCall ∧
      (m.bootstrapErr = none →
        Loader.Ev.mountCall (Loader.mountName appName index) elId
          ∈ (Loader.loadChildApp m appName index elId).trace)) := by
  constructor
  · intro h
    refine ⟨?_, ?_, ?_, fun s => missingExports_spec m s⟩ <;>
      simp [Loader.loadChildApp, h]
  · intro h
    constructor
    · cases hb : m.bootstrapErr <;> cases hm : m.mountErr <;>
        simp [Loader.loadChildApp, h, hb, hm]
    · intro hbok
      cases hm : m.mountErr <;>
        simp [Loader.loadChildApp, h, hbok, hm]

theorem c1_export_verification_witness :
    (¬((false : Bool) && true && true) = true) ∧
    (Loader.loadChildApp ⟨false, true, true, none, none, none, ["mount", "unmount"]⟩
        "a" 0 1).trace = [] := by
  constructor
  · decide
  · exact ((c1_export_verification
      ⟨false, true, true, none, none, none, ["mount", "unmount"]⟩ "a" 0 1).1
        (by decide)).1

/-- C2: for a module that passes export verification, the lifecycle call
trace has at most one mount; whenever a mount call appears, bootstrap was
awaited successfully first and the trace is exactly bootstrap followed by
that mount; and if bootstrap rejects, no mount is ever called. -/
theorem c2_lifecycle_order (m : Loader.ChildModule) (appName : String)
    (index elId : Nat)
    (hAll : (m.hasBootstrap && m.hasMount && m.hasUnmount) = true) :
    ((Loader.loadChildApp m appName index elId).trace.countP
        Loader.isMountCall ≤ 1) ∧
    (∀ n d, Loader.Ev.mountCall n d
        ∈ (Loader.loadChildApp m appName index elId).trace →
      m.bootstrapErr = none ∧
      (Loader.loadChildApp m appName index elId).trace
        = [Loader.Ev.bootstrapCall, Loader.Ev.mountCall n d]) ∧
    (m.bootstrapErr ≠ none → ∀ n d,
      Loader.Ev.mountCall n d
        ∉ (Loader.loadChildApp m appName index elId).trace) := by
  refine ⟨?_, ?_, ?_⟩
  · cases hb : m.bootstrapErr <;> cases hm : m.mountErr <;>
      simp [Loader.loadChildApp, hAll, hb, hm, List.countP_cons,
        Loader.isMountCall]
  · intro n d hmem
    cases hb : m.bootstrapErr <;> cases hm : m.mountErr <;>
      rw [Loader.loadChildApp] at hmem ⊢ <;>
      simp [hAll, hb, hm] at hmem ⊢ <;>
      simp [hmem]
  · intro hb n d
    obtain ⟨msg, hmsg⟩ := Option.ne_none_iff_exists'.mp hb
    simp [Loader.loadChildApp, hAll, hmsg]

theorem c2_lifecycle_order_witness :
    ((true : Bool) && true && true) = true ∧
    ((Loader.loadChildApp ⟨true, true, true, none, none, none, []⟩
        "a" 0 1).trace.countP Loader.isMountCall ≤ 1) := by
  exact ⟨by decide,
    (c2_lifecycle_order ⟨true, true, true, none, none, none, []⟩ "a" 0 1
      (by decide)).1⟩

/-- C5: after a successful bootstrap-and-mount, removal runs the cleanup
closure, which calls the module's `unmount` exactly once, with the same
`name` and `domElement` that were passed to `mount`, and afterwards removes
the inner container from its parent — also when the unmount promise rejects
(the module's `unmountErr` is arbitrary here). -/
theorem c5_teardown_symmetric (m : Loader.ChildModule) (appName : String)
    (index elId : Nat)
    (hb : m.hasBootstrap = true) (hm : m.hasMount = true)
    (hu : m.hasUnmount = true)
    (hbok : m.bootstrapErr = none) (hmok : m.mountErr = none) :
    (Loader.loadChildApp m appName index elId).trace
      = [Loader.Ev.bootstrapCall,
         Loader.Ev.mountCall (Loader.mountName appName index) elId] ∧
    Loader.cleanup (Loader.loadChildApp m appName index elId).appInstance
        appName index true
      = [Loader.Ev.unmountCall (Loader.mountName appName index) elId,
         Loader.Ev.removeContainer elId] ∧
    (Loader.cleanup (Loader.loadChildApp m appName index elId).appInstance
        appName index true).countP Loader.isUnmountCall = 1 := by
  refine ⟨?_, ?_, ?_⟩ <;>
    simp [Loader.loadChildApp, Loader.cleanup, hb, hm, hu, hbok, hmok,
      List.countP_cons, Loader.isUnmountCall]

theorem c5_teardown_symmetric_witness :
    Loader.cleanup
        (Loader.loadChildApp
          ⟨true, true, true, none, none, some "boom", []⟩ "a" 0 7).appInstance
        "a" 0 true
      = [Loader.Ev.unmountCall (Loader.mountName "a" 0) 7,
         Loader.Ev.removeContainer 7] :=
  (c5_teardown_symmetric ⟨true, true, true, none, none, some "boom", []⟩
    "a" 0 7 rfl rfl rfl rfl rfl).2.1

/-- C6: the root config registers exactly one application, named `main` and
active on `/`, starts the runtime exactly once, and executes
`setupSingleSpaEventHandlers` before `registerApplication`, which in turn
precedes `start`. -/
theorem c6_root_orchestration :
    RootConfig.rootConfigActions.filter RootConfig.isRegisterAction
      = [RootConfig.RootAction.register "main" ["/"]] ∧
    RootConfig.rootConfigActions.countP RootConfig.isStartAction = 1 ∧
    RootConfig.rootConfigActions.findIdx RootConfig.isSetupAction
      < RootConfig.rootConfigActions.findIdx RootConfig.isRegisterAction ∧
    RootConfig.rootConfigActions.findIdx RootConfig.isRegisterAction
      < RootConfig.rootConfigActions.findIdx RootConfig.isStartAction := by
  decide

/-- C7: the persistence effect stores the serialised applications list under
the localStorage key `childApplications`, and the startup read of that key
parses back exactly the list that was last saved. -/
theorem c7_persistence_round_trip (apps : List AppEntry) (store : Store) :
    (assocGet (saveApps apps store) "childApplications"
      = some (stringifyApps apps) ∧
     loadApps (saveApps apps store) = some apps) ∧
    (∀ st : MainAppState,
      (handleSubmitStore st store).2 = store ∨
      loadApps ((handleSubmitStore st store).2)
        = some ((handleSubmitStore st store).1.applications)) := by
  refine ⟨⟨assocGet_assocSet store _ _, ?_⟩, ?_⟩
  · simp [loadApps, saveApps, assocGet_assocSet, parseApps_stringifyApps]
  · intro st
    by_cases hb : jsTrim st.formData.name = "" ∨ jsTrim st.formData.url = ""
    · left
      cases hb with
      | inl h => simp [handleSubmitStore, h]
      | inr h => simp [handleSubmitStore, h]
    · right
      push_neg at hb
      simp only [handleSubmitStore, hb.1, hb.2]
      simp [loadApps, saveApps, assocGet_assocSet, parseApps_stringifyApps]

/-- C9: submitting the form while the name or the url consists only of
whitespace (including the empty string) leaves the component state — the
applications list, the form data and the editing index — and the persisted
store completely unchanged. -/
theorem c9_blank_submit_is_noop (st : MainAppState) (store : Store)
    (h : st.formData.name.toList.all isJsWhitespace = true ∨
         st.formData.url.toList.all isJsWhitespace = true) :
    handleSubmitStore st store = (st, store) ∧ handleSubmit st = st := by
  have hcond : jsTrim st.formData.name = "" ∨ jsTrim st.formData.url = "" :=
    h.imp (jsTrim_of_all_whitespace _) (jsTrim_of_all_whitespace _)
  cases hcond with
  | inl hl => exact ⟨by simp [handleSubmitStore, hl], by simp [handleSubmit, hl]⟩
  | inr hr => exact ⟨by simp [handleSubmitStore, hr], by simp [handleSubmit, hr]⟩

theorem c9_blank_submit_is_noop_witness :
    ((" x".toList.all isJsWhitespace = true ∨
      "  ".toList.all isJsWhitespace = true) ∧
     handleSubmitStore ⟨[⟨"a", "u"⟩], ⟨" x", "  "⟩, none⟩ []
       = (⟨[⟨"a", "u"⟩], ⟨" x", "  "⟩, none⟩, [])) := by
  refine ⟨Or.inr (by decide), ?_⟩
  exact (c9_blank_submit_is_noop ⟨[⟨"a", "u"⟩], ⟨" x", "  "⟩, none⟩ []
    (Or.inr (by decide))).1

/-- C3: `unmount` of the pure-js child is idempotent — when the app is not
mounted it is a no-op on both the app state (mounted flag, container
reference, listener list) and the DOM; a repeated unmount with the same
props changes nothing further; and unmounting a mounted app clears the
passed container, resets `mounted`, empties the listener list, and nulls the
container reference. -/
theorem c3_unmount_idempotent :
    (∀ (props : Option PureJs.LifecycleProps) (st : PureJs.AppState)
        (dom : PureJs.Dom), st.mounted = false →
      PureJs.unmount props st dom = (st, dom)) ∧
    (∀ (props : Option PureJs.LifecycleProps) (st : PureJs.AppState)
        (dom : PureJs.Dom),
      PureJs.unmount props (PureJs.unmount props st dom).1
          (PureJs.unmount props st dom).2
        = PureJs.unmount props st dom) ∧
    (∀ (el : Nat) (st : PureJs.AppState) (dom : PureJs.Dom),
      st.mounted = true →
      (PureJs.unmount (some ⟨some el⟩) st dom).1.mounted = false ∧
      (PureJs.unmount (some ⟨some el⟩) st dom).1.container = none ∧
      (PureJs.unmount (some ⟨some el⟩) st dom).1.eventListeners = [] ∧
      (PureJs.unmount (some ⟨some el⟩) st dom).2
        = PureJs.setInner dom el "") := by
  refine ⟨?_, ?_, ?_⟩
  · intro props st dom h
    match props with
    | none => rfl
    | some p =>
      match hd : p.domElement with
      | none => simp [PureJs.unmount, hd]
      | some el => simp [PureJs.unmount, hd, PureJs.destroyApp, h]
  · intro props st dom
    match props with
    | none => rfl
    | some p =>
      match hd : p.domElement with
      | none => simp [PureJs.unmount, hd]
      | some el =>
        cases hm : st.mounted <;>
          simp [PureJs.unmount, hd, PureJs.destroyApp, hm]
  · intro el st dom h
    simp [PureJs.unmount, PureJs.destroyApp, h]

theorem c3_unmount_idempotent_witness :
    PureJs.unmount (some ⟨some 3⟩) PureJs.initialAppState ⟨[], false⟩
      = (PureJs.initialAppState, ⟨[], false⟩) :=
  c3_unmount_idempotent.1 (some ⟨some 3⟩) PureJs.initialAppState ⟨[], false⟩ rfl

/-- C4: the one-mount-per-fragment invariant `mounted = container.isSome`
holds for the initial `appState` and is preserved by every `mount` and
`unmount`; and `createApp` on an already-mounted state returns early,
leaving both the state and the DOM untouched. -/
theorem c4_mount_invariant :
    (PureJs.initialAppState.mounted
      = PureJs.initialAppState.container.isSome) ∧
    (∀ (props : Option PureJs.LifecycleProps) (st : PureJs.AppState)
        (dom : PureJs.Dom), st.mounted = st.container.isSome →
      ((PureJs.mount props st dom).2.1).mounted
        = ((PureJs.mount props st dom).2.1).container.isSome) ∧
    (∀ (props : Option PureJs.LifecycleProps) (st : PureJs.AppState)
        (dom : PureJs.Dom), st.mounted = st.container.isSome →
      ((PureJs.unmount props st dom).1).mounted
        = ((PureJs.unmount props st dom).1).container.isSome) ∧
    (∀ (el : Nat) (st : PureJs.AppState) (dom : PureJs.Dom),
      st.mounted = true → PureJs.createApp el st dom = (st, dom)) := by
  refine ⟨rfl, ?_, ?_, ?_⟩
  · intro props st dom h
    match props with
    | none => exact h
    | some p =>
      match hd : p.domElement with
      | none => simpa [PureJs.mount, hd] using h
      | some el =>
        cases hm : st.mounted with
        | true => simpa [PureJs.mount, hd, PureJs.createApp, hm] using h
        | false => simp [PureJs.mount, hd, PureJs.createApp, hm]
  · intro props st dom h
    match props with
    | none => exact h
    | some p =>
      match hd : p.domElement with
      | none => simpa [PureJs.unmount, hd] using h
      | some el =>
        cases hm : st.mounted with
        | true => simp [PureJs.unmount, hd, PureJs.destroyApp, hm]
        | false => simpa [PureJs.unmount, hd, PureJs.destroyApp, hm] using h
  · intro el st dom h
    simp [PureJs.createApp, h]

theorem c4_mount_invariant_witness :
    ((PureJs.mount (some ⟨some 2⟩) PureJs.initialAppState ⟨[], false⟩).2.1).mounted
      = ((PureJs.mount (some ⟨some 2⟩) PureJs.initialAppState
          ⟨[], false⟩).2.1).container.isSome :=
  c4_mount_invariant.2.1 (some ⟨some 2⟩) PureJs.initialAppState ⟨[], false⟩ rfl

/-- C10: the pure-js `mount` rejects with `No DOM element provided` exactly
when its props argument is absent or carries no `domElement`; in that case
the app state and the DOM (contents and injected styles) are unchanged. -/
theorem c10_mount_requires_dom_element (props : Option PureJs.LifecycleProps)
    (st : PureJs.AppState) (dom : PureJs.Dom) :
    ((PureJs.mount props st dom).1
        = Except.error "No DOM element provided" ↔
      (Option.bind props fun p => p.domElement) = none) ∧
    ((Option.bind props fun p => p.domElement) = none →
      (PureJs.mount props st dom).2 = (st, dom)) := by
  match props with
  | none => exact ⟨by simp [PureJs.mount], fun _ => rfl⟩
  | some p =>
    match hd : p.domElement with
    | none =>
      exact ⟨by simp [PureJs.mount, hd], fun _ => by simp [PureJs.mount, hd]⟩
    | some el =>
      refine ⟨?_, ?_⟩
      · simp [PureJs.mount, hd]
      · intro hcon
        simp [hd] at hcon

theorem c10_mount_requires_dom_element_witness :
    (PureJs.mount (some ⟨none⟩) PureJs.initialAppState ⟨[], false⟩).2
      = (PureJs.initialAppState, ⟨[], false⟩) :=
  (c10_mount_requires_dom_element (some ⟨none⟩) PureJs.initialAppState
    ⟨[], false⟩).2 rfl

/-- C8: with non-blank form fields, submitting while not editing appends
exactly the form entry at the end of the list; submitting while editing
index `i` replaces only the entry at `i` (same length, entry `i` becomes the
form data, every other position unchanged) and clears the editing index; and
deleting index `i` removes exactly that entry, keeping the rest in order. -/
theorem c8_registry_reconciliation (apps : List AppEntry) (fd : AppEntry)
    (i : Nat) (hname : jsTrim fd.name ≠ "") (hurl : jsTrim fd.url ≠ "")
    (hi : i < apps.length) :
    (handleSubmit ⟨apps, fd, none⟩).applications = apps ++ [fd] ∧
    ((handleSubmit ⟨apps, fd, some i⟩).applications = apps.set i fd ∧
     (handleSubmit ⟨apps, fd, some i⟩).applications[i]? = some fd ∧
     (∀ j, j ≠ i →
       (handleSubmit ⟨apps, fd, some i⟩).applications[j]? = apps[j]?) ∧
     (handleSubmit ⟨apps, fd, some i⟩).editingIndex = none) ∧
    (∀ st : MainAppState,
      (handleDelete i st).applications = st.applications.eraseIdx i) := by
  refine ⟨?_, ⟨?_, ?_, ?_, ?_⟩, ?_⟩
  · simp [handleSubmit, hname, hurl]
  · simp [handleSubmit, hname, hurl]
  · simp [handleSubmit, hname, hurl, List.getElem?_set_eq_of_lt _ hi]
  · intro j hj
    simp [handleSubmit, hname, hurl, List.getElem?_set_ne (Ne.symm hj)]
  · simp [handleSubmit, hname, hurl]
  · intro st
    simpa [handleDelete] using
      filter_enum_ne_eq_eraseIdx st.applications i

theorem c8_registry_reconciliation_witness :
    (jsTrim "b" ≠ "" ∧ jsTrim "v" ≠ "" ∧ 0 < [(⟨"a", "u"⟩ : AppEntry)].length) ∧
    (handleSubmit ⟨[⟨"a", "u"⟩], ⟨"b", "v"⟩, none⟩).applications
      = [⟨"a", "u"⟩, ⟨"b", "v"⟩] := by
  refine ⟨⟨by decide, by decide, by decide⟩, ?_⟩
  exact (c8_registry_reconciliation [⟨"a", "u"⟩] ⟨"b", "v"⟩ 0
    (by decide) (by decide) (by decide)).1

end SingleSpaSample
